import Mathlib

set_option autoImplicit false

namespace Snk

/-- Model of the Python runtime values that flow through the snk CLI:
YAML scalars (ints, bools, strings), lists, string-keyed dicts (as ordered
association lists, insertion order preserved), and `pathlib.Path` values. -/
inductive Value where
  | int (n : Int)
  | bool (b : Bool)
  | str (s : String)
  | path (p : String)
  | list (xs : List Value)
  | dict (kvs : List (String × Value))

mutual

/-- Python `==` on `Value`s: same-type structural comparison, with the numeric
cross-type rule `True == 1` / `False == 0`; `dict` comparison is length plus
key-wise lookup (order-insensitive, as in Python); every other cross-type
comparison is `False`. -/
def pyEq : Value → Value → Bool
  | .int a, v =>
    match v with
    | .int b => a == b
    | .bool b => a == (if b then (1 : Int) else 0)
    | _ => false
  | .bool a, v =>
    match v with
    | .int b => (if a then (1 : Int) else 0) == b
    | .bool b => a == b
    | _ => false
  | .str a, v =>
    match v with
    | .str b => a == b
    | _ => false
  | .path a, v =>
    match v with
    | .path b => a == b
    | _ => false
  | .list as, v =>
    match v with
    | .list bs => pyEqList as bs
    | _ => false
  | .dict as, v =>
    match v with
    | .dict bs => as.length == bs.length && pyEqDict as bs
    | _ => false

def pyEqList : List Value → List Value → Bool
  | [], [] => true
  | a :: as, b :: bs => pyEq a b && pyEqList as bs
  | _, _ => false

def pyEqDict : List (String × Value) → List (String × Value) → Bool
  | [], _ => true
  | (k, v) :: rest, bs =>
    (match bs.find? (fun kv => kv.1 == k) with
     | some kv => pyEq v kv.2
     | none => false)
    && pyEqDict rest bs

end

mutual

/-- Embedding of `serialise` (src/snk/cli/main.py, lines 37-49): `Path` and
datetime values become their string form, lists are serialised elementwise,
dict values are serialised in place, and every other scalar is returned
unchanged. -/
def serialise : Value → Value
  | .path p => .str p
  | .list xs => .list (serialiseList xs)
  | .dict kvs => .dict (serialiseDict kvs)
  | v => v

def serialiseList : List Value → List Value
  | [] => []
  | x :: xs => serialise x :: serialiseList xs

def serialiseDict : List (String × Value) → List (String × Value)
  | [] => []
  | (k, v) :: rest => (k, serialise v) :: serialiseDict rest

end

/-- Python `str.split(sep)` for a single-character separator, on char lists:
splits at every occurrence of the separator, keeping empty chunks; the result
is always non-empty. -/
def splitChar (sep : Char) : List Char → List (List Char)
  | [] => [[]]
  | c :: cs =>
    match splitChar sep cs with
    | chunk :: rest =>
      if c = sep then [] :: chunk :: rest else (c :: chunk) :: rest
    | [] => [[c]]

/-- Python `key.split(":")` lifted to `String`. -/
def pySplitColon (s : String) : List String :=
  (splitChar (':') s.data).map String.mk

/-- Python `arg.startswith("-")`: the string is non-empty and its first
character is a dash. -/
def startsWithDash (s : String) : Bool :=
  match s.data with
  | c :: _ => c == ('-')
  | [] => false

/-- Python `arg.lstrip("-")`: drop every leading dash. -/
def lstripDash (s : String) : String :=
  String.mk (s.data.dropWhile (fun c => c == ('-')))

/-- Python single-character `str.replace(old, new)`: a character-wise map. -/
def replaceChar (old new : Char) (s : String) : String :=
  String.mk (s.data.map (fun c => if c = old then new else c))

/-- Embedding of `convert_key_to_samkemake_format`'s nested-dict construction
(src/snk/cli/main.py, lines 27-35): starting from an empty dict, each path
segment before the last opens a fresh singleton dict and the last segment maps
to the value, so the loop builds exactly this single chain. The `[]` case is
unreachable because `split` never returns an empty list. -/
def nestParts : List String → Value → Value
  | [], v => v
  | [p], v => .dict [(p, v)]
  | p :: ps, v => .dict [(p, nestParts ps v)]

/-- Embedding of `convert_key_to_samkemake_format(key, value)`
(src/snk/cli/main.py, lines 23-35): split the key on the delimiter and build
the minimal nested single-entry dict with the value at the leaf. -/
def convert_key_to_samkemake_format (key : String) (value : Value) : Value :=
  nestParts (pySplitColon key) value

/-- The merged option record built by `build_dynamic_cli_options`
(src/snk/cli/main.py, lines 91-100): the Python dict with keys `name`,
`original_key`, `default`, `help`, `type`, `required`. -/
structure OptionDescriptor where
  name : String
  original_key : String
  default : Value
  help : Value := .str ("")
  type : Value := .str ("")
  required : Value := .bool false

/-- The override entry appended by `parse_config_args`: a one-entry Python
dict, modelled as an association list. -/
abbrev ConfigEntry := List (String × Value)

/-- The scanning loop of `parse_config_args` (src/snk/cli/main.py, lines
55-75). The state is the pending flag slot: the code stores the raw flag
token and re-resolves it with `next(op for op in options if op['name'] ==
flag.lstrip('-'))`; since the slot is only ever set after checking
`arg.lstrip('-') in names`, storing the first descriptor whose name matches
the stripped token is equivalent, and avoids modelling the impossible
`StopIteration`. In the delimiter branch the code takes the single top-level
key of the rebuilt nested dict; `convert_key_to_samkemake_format` always
returns a one-entry dict, so the fallback arm is unreachable. -/
def parseLoop (options : List OptionDescriptor) :
    Option OptionDescriptor → List String → List String × List ConfigEntry
  | some op, arg :: rest =>
    if pyEq op.default (serialise (.str arg)) then
      -- skip args that don't change
      parseLoop options none rest
    else
      let entry : ConfigEntry :=
        if op.original_key.data.contains (':') then
          match convert_key_to_samkemake_format op.original_key (.str arg) with
          | .dict ((k, v) :: _) => [(k, serialise v)]
          | _ => [(op.name, serialise (.str arg))]
        else
          [(op.name, serialise (.str arg))]
      let (parsed, config) := parseLoop options none rest
      (parsed, entry :: config)
  | none, arg :: rest =>
    if startsWithDash arg then
      match options.find? (fun op => op.name == lstripDash arg) with
      | some op => parseLoop options (some op) rest
      | none =>
        let (parsed, config) := parseLoop options none rest
        (arg :: parsed, config)
    else
      let (parsed, config) := parseLoop options none rest
      (arg :: parsed, config)
  | _, [] => ([], [])

/-- Embedding of `parse_config_args(args, options)` (src/snk/cli/main.py,
lines 51-76): returns the passthrough tokens and the override entry list. -/
def parse_config_args (args : List String) (options : List OptionDescriptor) :
    List String × List ConfigEntry :=
  parseLoop options none args

/-- The pending-flag slot of the `parse_config_args` scan after consuming a
token list, used to decompose runs of the scanner over concatenations. -/
def stateAfter (options : List OptionDescriptor) :
    Option OptionDescriptor → List String → Option OptionDescriptor
  | st, [] => st
  | some _, _ :: rest => stateAfter options none rest
  | none, arg :: rest =>
    if startsWithDash arg then
      match options.find? (fun op => op.name == lstripDash arg) with
      | some op => stateAfter options (some op) rest
      | none => stateAfter options none rest
    else
      stateAfter options none rest

mutual

/-- Modelled from the spec: one value visited by `flatten` under its joined
path key (the `flatten` source, imported by src/snk/cli/main.py from
`snk.cli.utils`, is not in the repository snapshot; §4.1 of the
specification describes it). A nested mapping is never emitted itself, only
its leaves; any other value is a leaf emitted under its path. -/
def flattenValue (key : String) : Value → List (String × Value)
  | .dict kvs => flattenEntries key kvs
  | leaf => [(key, leaf)]

/-- Modelled from the spec: depth-first traversal of a mapping's entries in
insertion order, extending the delimiter-joined path. -/
def flattenEntries (pre : String) : List (String × Value) → List (String × Value)
  | [] => []
  | (k, v) :: rest =>
    flattenValue (if pre = ("") then k else pre ++ (":") ++ k) v ++ flattenEntries pre rest

end

/-- Modelled from the spec: `flatten(tree)` (§4.1); the tree is a mapping, so
a non-mapping root has no leaves to emit. -/
def flatten (tree : Value) : List (String × Value) :=
  match tree with
  | .dict kvs => flattenEntries ("") kvs
  | _ => []

/-- Python `type(x).__name__` for the modelled runtime values. -/
def typeName : Value → String
  | .int _ => ("int")
  | .bool _ => ("bool")
  | .str _ => ("str")
  | .path _ => ("PosixPath")
  | .list _ => ("list")
  | .dict _ => ("dict")

/-- Python `dict.get` on the flattened annotation mapping: the first entry
with the given key, if any. -/
def getAnn (flatAnn : List (String × Value)) (key : String) : Option Value :=
  (flatAnn.find? (fun kv => kv.1 == key)).map (fun kv => kv.2)

/-- The per-key loop of `build_dynamic_cli_options` (src/snk/cli/main.py,
lines 83-100), one descriptor appended per flattened configuration key.
`none` models the Python `AttributeError` raised when an annotation-provided
`name` is not a string (the code calls `.replace` on it unconditionally). -/
def buildGo (flatAnn : List (String × Value)) :
    List (String × Value) → Option (List OptionDescriptor)
  | [] => some []
  | (op, dflt) :: rest =>
    let nameV : Value :=
      (getAnn flatAnn (op ++ (":name"))).getD (.str (replaceChar (':') ('_') op))
    match nameV with
    | .str n =>
      match buildGo flatAnn rest with
      | some l =>
        some ({ name := replaceChar ('-') ('_') n,
                original_key := op,
                default := dflt,
                help := (getAnn flatAnn (op ++ (":help"))).getD (.str ("")),
                type := (getAnn flatAnn (op ++ (":type"))).getD (.str (typeName dflt)),
                required := (getAnn flatAnn (op ++ (":required"))).getD (.bool false) } :: l)
      | none => none
    | _ => none

/-- Embedding of `build_dynamic_cli_options(snakemake_config, snk_config)`
(src/snk/cli/main.py, lines 79-102): flatten the configuration and the
annotations, then synthesize one option record per flattened configuration
key. -/
def build_dynamic_cli_options (snakemake_config : Value) (snk_annotations : Value) :
    Option (List OptionDescriptor) :=
  buildGo (flatten snk_annotations) (flatten snakemake_config)

mutual

/-- Python `repr` for the modelled values (naive quoting, no escape
handling), used by f-string interpolation of containers. -/
def pyRepr : Value → String
  | .int n => toString n
  | .bool b => if b then ("True") else ("False")
  | .str s => ("'") ++ s ++ ("'")
  | .path p => ("PosixPath('") ++ p ++ ("')")
  | .list xs => ("[") ++ pyReprList xs ++ ("]")
  | .dict kvs => ("\x7b") ++ pyReprDict kvs ++ ("\x7d")

/-- `repr` of list members, comma separated. -/
def pyReprList : List Value → String
  | [] => ("")
  | [x] => pyRepr x
  | x :: xs => pyRepr x ++ (", ") ++ pyReprList xs

/-- `repr` of dict entries, comma separated. -/
def pyReprDict : List (String × Value) → String
  | [] => ("")
  | [(k, v)] => ("'") ++ k ++ ("': ") ++ pyRepr v
  | (k, v) :: rest => ("'") ++ k ++ ("': ") ++ pyRepr v ++ (", ") ++ pyReprDict rest

end

/-- Python `str(x)` / f-string interpolation: a string interpolates as
itself, anything else as its `repr`-style form. -/
def pyStr : Value → String
  | .str s => s
  | v => pyRepr v

/-- The `key=value` tokens built by `RunApp.run` (src/snk/cli/subcommands/
run.py, lines 242-245): one token per entry of each override dict. -/
def configTokens (config_dict_list : List ConfigEntry) : List String :=
  (config_dict_list.map (fun d => d.map (fun kv => kv.1 ++ ("=") ++ pyStr kv.2))).flatten

/-- The `key=value` tokens built by `CLI.run` (src/snk/cli/main.py, line
281): `f"{list(c.keys())[0]}={list(c.values())[0]}"`, one token per override
dict, taking the dict's first entry. The `[]` arm models the `IndexError` on
an empty dict, unreachable for `parse_config_args` output. -/
def cliConfigTokens (config_dict_list : List ConfigEntry) : List String :=
  config_dict_list.map (fun c =>
    match c with
    | (k, v) :: _ => k ++ ("=") ++ pyStr v
    | [] => (""))

/-- Python `t.replace("--snake-", "-")` on char lists (src/snk/cli/
subcommands/run.py, line 239): replace every non-overlapping occurrence of
the pattern, left to right. -/
def replaceSnakeGo : List Char → List Char
  | '-' :: '-' :: 's' :: 'n' :: 'a' :: 'k' :: 'e' :: '-' :: rest => ('-') :: replaceSnakeGo rest
  | c :: cs => c :: replaceSnakeGo cs
  | [] => []

/-- Python `t.replace("--snake-", "-")` lifted to `String`. -/
def replaceSnake (s : String) : String :=
  String.mk (replaceSnakeGo s.data)

/-- The environment-dependent inputs of `RunApp.run`'s argument assembly
(src/snk/cli/subcommands/run.py, lines 168-233): typer-bound options and
the results of the filesystem/subprocess probes the code performs. The
snakefile is assumed found (otherwise the code raises before assembling
anything), `configfile` is the value after the line 188-191 defaulting and
`profileArg` the string interpolated at line 197. -/
structure RunEnv where
  target : Option String
  cores : Option Nat
  singularityPrefixDir : Option String
  snakefile : String
  configfile : Option String
  profileArg : Option String
  condaFound : Bool
  requireConda : Bool
  mambaFound : Bool
  verbose : Bool
  force : Bool
  dry : Bool
  lock : Bool
  condaPrefixDir : String

/-- Python `if not cores: cores = "all"` then `f"--cores={cores}"`: `None`
and `0` are falsy. -/
def coresStr (e : RunEnv) : String :=
  match e.cores with
  | some n => if n = 0 then ("all") else toString n
  | none => ("all")

/-- The fixed engine flags assembled by `RunApp.run` before the reconciled
tokens (src/snk/cli/subcommands/run.py, lines 169-233), in code order;
`ctxArgs2` is `ctx.args` after the target was appended (line 178-179). -/
def buildBaseArgs (e : RunEnv) (ctxArgs2 : List String) : List String :=
  let args := [("--rerun-incomplete"), ("--cores=") ++ coresStr e]
  let args := args ++
    (match e.singularityPrefixDir with
     | some d =>
       if ctxArgs2.contains ("--use-singularity") then [("--singularity-prefix=") ++ d]
       else []
     | none => [])
  let args := args ++ [("--snakefile=") ++ e.snakefile]
  let args := args ++ (match e.configfile with
    | some c => [("--configfile=") ++ c]
    | none => [])
  let args := args ++ (match e.profileArg with
    | some p => [("--profile=") ++ p]
    | none => [])
  let args := args ++
    (if e.condaFound || e.requireConda then
      [("--use-conda"), ("--conda-prefix=") ++ e.condaPrefixDir] ++
        (if !e.mambaFound then [("--conda-frontend=conda")] else [("--conda-frontend=mamba")])
    else [])
  let args := if e.verbose then ("--verbose") :: args else args
  let args := args ++ (if e.force then [("--forceall")] else [])
  let args := args ++ (if e.dry then [("--dryrun")] else [])
  args ++ (if !e.lock then [("--nolock")] else [])

/-- The token list the target argument contributes to `ctx.args`
(src/snk/cli/subcommands/run.py, lines 178-179). -/
def targetTokens (e : RunEnv) : List String :=
  match e.target with
  | some t => [t]
  | none => []

/-- The full engine argument list assembled by `RunApp.run`
(src/snk/cli/subcommands/run.py, lines 169-248): fixed flags, then the
reconciled passthrough tokens (after the `--snake-` rewrite of lines
238-240), then `--config` plus the `key=value` tokens, the last block only
when at least one such token exists (line 247-248). -/
def runAppArgs (e : RunEnv) (ctxArgs : List String) (options : List OptionDescriptor) :
    List String :=
  let ctxArgs2 := ctxArgs ++ targetTokens e
  let base := buildBaseArgs e ctxArgs2
  let parsed := parse_config_args ctxArgs2 options
  let targets := parsed.1.map replaceSnake
  let configs := configTokens parsed.2
  base ++ targets ++ (if configs.isEmpty then [] else ("--config") :: configs)

/-- The tail of `CLI.run`'s argument assembly (src/snk/cli/main.py, lines
277-281): the reconciled passthrough tokens are appended to the flags
accumulated so far, then `--config` and the `key=value` tokens are appended
unconditionally. -/
def cliRunConfigExtend (argsSoFar : List String) (ctxArgs : List String)
    (options : List OptionDescriptor) : List String :=
  let parsed := parse_config_args ctxArgs options
  argsSoFar ++ parsed.1 ++ ("--config") :: cliConfigTokens parsed.2

/-- The staging loop of `copy_resources` (src/snk/cli/main.py, lines
202-214, and the identical logic of `RunApp._copy_resources`,
src/snk/cli/subcommands/run.py, lines 370-382). The working directory is
modelled as the list of names present in it; each resource is copied (its
destination name added) only when no entry of that name exists, and the
destinations this invocation copied are recorded in order. -/
def stageGo : List String → List String → List String × List String
  | fs, [] => (fs, [])
  | fs, r :: rest =>
    if r ∈ fs then stageGo fs rest
    else
      let step := stageGo (fs ++ [r]) rest
      (step.1, r :: step.2)

/-- The cleanup loop of the `finally` block (src/snk/cli/main.py, lines
217-222): each recorded destination that still exists is removed. -/
def cleanupStaged (fs : List String) (copied : List String) : List String :=
  copied.foldl (fun f c => if c ∈ f then f.erase c else f) fs

/-- The `copy_resources` context manager around the engine call
(src/snk/cli/main.py, lines 176-222): stage, run the body (the engine call,
returning the directory contents it leaves behind and a success flag; a
`False` flag models a raised exception propagating out of the `with` block),
then — in `finally`, hence on success and failure alike — remove the
recorded copies that still exist, unless cleanup is disabled. -/
def withCopyResources (fs : List String) (resources : List String) (cleanup : Bool)
    (engine : List String → List String × Bool) : List String × Bool :=
  let staged := stageGo fs resources
  let after := engine staged.1
  ((if cleanup then cleanupStaged after.1 staged.2 else after.1), after.2)

/-- The post-engine control flow of `RunApp.run` (src/snk/cli/subcommands/
run.py, lines 251-274): before the call, a pre-existing `.snakemake`
directory forces `keep_snakemake` (lines 251-252); the engine's `SystemExit`
status is re-raised unchanged when nonzero (lines 267-270), skipping
everything after; on a zero status the flow continues and `.snakemake` is
deleted exactly when it exists and is not being kept (lines 271-274).
Returns the process exit status and whether the delete was performed. -/
def runPostEngine (status : Int) (keepSnakemake preExists postExists : Bool) :
    Int × Bool :=
  let keep := if !keepSnakemake && preExists then true else keepSnakemake
  if status ≠ 0 then (status, false)
  else (0, !keep && postExists)

/-- The minimal nested single-entry mapping reproducing a non-empty path
with the value at the leaf, following the words of the specification (§4.1,
`unflatten_key`); stated from the spec for comparison with
`convert_key_to_samkemake_format`. -/
def specNestedMapping : List String → Value → Value
  | [], v => v
  | [p], v => .dict [(p, v)]
  | p :: ps, v => .dict [(p, specNestedMapping ps v)]

/-- Join path segments with the `:` delimiter. -/
def joinColon : List String → String
  | [] => ("")
  | [s] => s
  | s :: rest => s ++ (":") ++ joinColon rest

/-- The synthesis rule claimed for one descriptor (claim C5): `original_key`
and `default` come from the flattened configuration entry; `name` is the
annotation-provided name when present, else the FlatKey with delimiters
replaced by underscores, hyphens then replaced by underscores in either
case; `type` defaults to the runtime type name of the default value,
`required` to `False` and `help` to the empty string when not annotated. -/
def synthesizedPerSpec (flatAnn : List (String × Value)) (kv : String × Value)
    (d : OptionDescriptor) : Prop :=
  d.original_key = kv.1 ∧
  d.default = kv.2 ∧
  (∀ s, getAnn flatAnn (kv.1 ++ (":name")) = some (.str s) →
    d.name = replaceChar ('-') ('_') s) ∧
  (getAnn flatAnn (kv.1 ++ (":name")) = none →
    d.name = replaceChar ('-') ('_') (replaceChar (':') ('_') kv.1)) ∧
  (getAnn flatAnn (kv.1 ++ (":type")) = none → d.type = .str (typeName kv.2)) ∧
  (getAnn flatAnn (kv.1 ++ (":required")) = none → d.required = .bool false) ∧
  (getAnn flatAnn (kv.1 ++ (":help")) = none → d.help = .str (""))

/-- The descriptor of the specification's running scenario (§8): config
`a: (b: 1)` with empty annotations synthesizes `name=a_b`,
`original_key="a:b"`, `default=1`. -/
def descAB : OptionDescriptor :=
  { name := ("a_b"), original_key := ("a:b"), default := .int 1,
    help := .str (""), type := .str ("int"), required := .bool false }

/-- A concrete environment for evaluating the `RunApp.run` assembly. -/
def sampleEnv : RunEnv :=
  { target := none, cores := some 1, singularityPrefixDir := none,
    snakefile := ("Snakefile"), configfile := none, profileArg := none,
    condaFound := false, requireConda := false, mambaFound := false,
    verbose := false, force := false, dry := false, lock := true,
    condaPrefixDir := ("c") }

theorem parseLoop_nil (options : List OptionDescriptor) (st : Option OptionDescriptor) :
    parseLoop options st [] = ([], []) := by
  cases st <;> rfl

theorem stateAfter_nil (options : List OptionDescriptor) (st : Option OptionDescriptor) :
    stateAfter options st [] = st := by
  cases st <;> rfl

/-- Decomposing a run of the `parse_config_args` scanner over a
concatenation: the outputs produced while scanning the first part are
exactly those of scanning it alone (a flag left dangling at its end
contributes nothing either way), and the second part is scanned from the
carried-over pending slot. -/
theorem parseLoop_append (options : List OptionDescriptor) (xs : List String) :
    ∀ (st : Option OptionDescriptor) (ys : List String),
    parseLoop options st (xs ++ ys) =
      ((parseLoop options st xs).1 ++ (parseLoop options (stateAfter options st xs) ys).1,
       (parseLoop options st xs).2 ++ (parseLoop options (stateAfter options st xs) ys).2) := by
  induction xs with
  | nil =>
    intro st ys
    simp [parseLoop_nil, stateAfter_nil]
  | cons a xs ih =>
    intro st ys
    cases st with
    | some op =>
      by_cases h : pyEq op.default (serialise (.str a)) = true
      · simp [parseLoop, stateAfter, h, ih]
      · simp [parseLoop, stateAfter, h, ih]
    | none =>
      by_cases h : startsWithDash a = true
      · cases hf : options.find? (fun op => op.name == lstripDash a) with
        | some op => simp [parseLoop, stateAfter, h, hf, ih]
        | none => simp [parseLoop, stateAfter, h, hf, ih]
      · simp [parseLoop, stateAfter, h, ih]

/-- `splitChar` never returns an empty list of chunks. -/
theorem splitChar_ne_nil (sep : Char) (l : List Char) : splitChar sep l ≠ [] := by
  cases l with
  | nil => simp [splitChar]
  | cons c cs =>
    simp only [splitChar]
    cases splitChar sep cs with
    | nil => simp
    | cons chunk rest =>
      by_cases h : c = sep <;> simp [h]

/-- `convert_key_to_samkemake_format` always returns a dict with exactly one
top-level entry. -/
theorem convert_single (key : String) (v : Value) :
    ∃ k w, convert_key_to_samkemake_format key v = .dict [(k, w)] := by
  unfold convert_key_to_samkemake_format pySplitColon
  cases hs : splitChar (':') key.data with
  | nil => exact absurd hs (splitChar_ne_nil _ _)
  | cons chunk rest =>
    cases rest with
    | nil => exact ⟨String.mk chunk, v, rfl⟩
    | cons chunk2 rest2 =>
      exact ⟨String.mk chunk,
        nestParts (String.mk chunk2 :: (rest2.map String.mk)) v, rfl⟩

/-- Every override entry appended by the scanner is a one-entry dict. -/
theorem parseLoop_config_singleton (options : List OptionDescriptor) (args : List String) :
    ∀ (st : Option OptionDescriptor), ∀ c ∈ (parseLoop options st args).2, c.length = 1 := by
  induction args with
  | nil =>
    intro st c hc
    rw [parseLoop_nil] at hc
    simp at hc
  | cons a rest ih =>
    intro st c hc
    cases st with
    | some op =>
      by_cases h : pyEq op.default (serialise (.str a)) = true
      · rw [show parseLoop options (some op) (a :: rest) = parseLoop options none rest by
          simp [parseLoop, h]] at hc
        exact ih none c hc
      · simp only [parseLoop, h] at hc
        simp only [Bool.false_eq_true, if_false, List.mem_cons] at hc
        rcases hc with hc | hc
        · subst hc
          by_cases hk : (':') ∈ op.original_key.data
          · obtain ⟨k, w, hw⟩ := convert_single op.original_key (.str a)
            simp [hk, hw]
          · simp [hk]
        · exact ih none c hc
    | none =>
      by_cases h : startsWithDash a = true
      · cases hf : options.find? (fun op => op.name == lstripDash a) with
        | some op =>
          rw [show parseLoop options none (a :: rest) = parseLoop options (some op) rest by
            simp [parseLoop, h, hf]] at hc
          exact ih (some op) c hc
        | none =>
          simp only [parseLoop, h, hf] at hc
          exact ih none c hc
      · simp only [parseLoop, h] at hc
        simp only [Bool.false_eq_true, if_false] at hc
        exact ih none c hc

theorem mk_data (s : String) : String.mk s.data = s := rfl

/-- Splitting a chunk free of the separator yields that single chunk. -/
theorem splitChar_no_sep (sep : Char) (l : List Char) (h : sep ∉ l) :
    splitChar sep l = [l] := by
  induction l with
  | nil => rfl
  | cons c cs ih =>
    have hc : c ≠ sep := fun he => h (he ▸ List.mem_cons_self c cs)
    have hcs : sep ∉ cs := fun hm => h (List.mem_cons_of_mem c hm)
    simp [splitChar, ih hcs, hc]

/-- Splitting past a leading separator-free chunk peels that chunk off. -/
theorem splitChar_chunk (sep : Char) (l1 l2 : List Char) (h : sep ∉ l1) :
    splitChar sep (l1 ++ sep :: l2) = l1 :: splitChar sep l2 := by
  induction l1 with
  | nil =>
    simp only [List.nil_append, splitChar]
    cases hs : splitChar sep l2 with
    | nil => exact absurd hs (splitChar_ne_nil _ _)
    | cons chunk rest => simp
  | cons c cs ih =>
    have hc : c ≠ sep := fun he => h (he ▸ List.mem_cons_self c cs)
    have hcs : sep ∉ cs := fun hm => h (List.mem_cons_of_mem c hm)
    show (match splitChar sep (cs ++ sep :: l2) with
          | chunk :: rest => if c = sep then [] :: chunk :: rest else (c :: chunk) :: rest
          | [] => [[c]]) = (c :: cs) :: splitChar sep l2
    rw [ih hcs]
    simp [hc]

theorem joinColon_data_cons (s : String) (rest : List String) (h : rest ≠ []) :
    (joinColon (s :: rest)).data = s.data ++ (':') :: (joinColon rest).data := by
  cases rest with
  | nil => exact absurd rfl h
  | cons t ts => simp [joinColon, String.data_append]

/-- Splitting the delimiter-join of delimiter-free segments recovers the
segments. -/
theorem pySplit_join (segs : List String) (hne : segs ≠ [])
    (hfree : ∀ s ∈ segs, (':') ∉ s.data) :
    pySplitColon (joinColon segs) = segs := by
  induction segs with
  | nil => exact absurd rfl hne
  | cons s rest ih =>
    cases rest with
    | nil =>
      unfold pySplitColon
      rw [show joinColon [s] = s from rfl,
        splitChar_no_sep (':') s.data (hfree s (List.mem_cons_self s []))]
      simp [mk_data]
    | cons t ts =>
      unfold pySplitColon
      rw [joinColon_data_cons s (t :: ts) (by simp),
        splitChar_chunk (':') s.data (joinColon (t :: ts)).data
          (hfree s (List.mem_cons_self s (t :: ts)))]
      have ihx := ih (by simp) (fun x hx => hfree x (List.mem_cons_of_mem s hx))
      unfold pySplitColon at ihx
      simp [mk_data, ihx]

/-- `nestParts` coincides with the nested single-entry mapping described by
the specification. -/
theorem nestParts_eq_spec (segs : List String) (v : Value) :
    nestParts segs v = specNestedMapping segs v := by
  induction segs with
  | nil => rfl
  | cons s rest ih =>
    cases rest with
    | nil => rfl
    | cons t ts =>
      simp only [nestParts, specNestedMapping]
      rw [ih]

theorem find?_name_eq_none (options : List OptionDescriptor) (s : String)
    (hm : s ∉ options.map (fun op => op.name)) :
    options.find? (fun o => o.name == s) = none := by
  rw [List.find?_eq_none]
  intro o ho
  simp only [beq_iff_eq]
  intro he
  exact hm (List.mem_map.mpr ⟨o, ho, he⟩)

theorem find?_name_isSome (options : List OptionDescriptor) (s : String)
    (hm : s ∈ options.map (fun op => op.name)) :
    ∃ op, options.find? (fun o => o.name == s) = some op := by
  rw [← Option.isSome_iff_exists, List.find?_isSome]
  rcases List.mem_map.mp hm with ⟨op, hmem, hname⟩
  exact ⟨op, hmem, by simp [hname]⟩

/-- Claim C1 (code behaviour at the failing input): with the single
descriptor `name=a_b, original_key="a:b", default=1`, parsing
`["--a_b", "1", "target"]` yields passthrough `["target"]` and the
override entry `a -> (b -> "1")` — the unchanged value is forwarded, not
suppressed, because the integer default `1` never compares equal to the
serialised token string `"1"` under Python equality. -/
theorem claim_C1_code_behaviour :
    parse_config_args [("--a_b"), ("1"), ("target")] [descAB] =
      ([("target")], [[(("a"), Value.dict [(("b"), Value.str ("1"))])]]) := rfl

/-- Claim C10 counterexample: when the final token is a matched flag that
immediately follows another matched flag, it is consumed as that flag's
value rather than silently dropped: it surfaces inside the override list,
and the result differs from parsing without it. -/
theorem claim_C10_counterexample :
    (parse_config_args [("--a_b"), ("--a_b")] [descAB]).2 =
      [[(("a"), Value.dict [(("b"), Value.str ("--a_b"))])]] ∧
    parse_config_args [("--a_b"), ("--a_b")] [descAB] ≠
      parse_config_args [("--a_b")] [descAB] := by
  refine ⟨rfl, fun h => ?_⟩
  have h2 : (1 : Nat) = 0 := congrArg (fun p => p.2.length) h
  exact absurd h2 (by decide)

/-- Claim C10 (amended): if the scan reaches the final token with no
descriptor flag pending, a trailing flag token whose stripped form matches
a descriptor name is silently dropped — the result is exactly that of
parsing the sequence without it, so it contributes to neither output list
and no error is signalled. -/
theorem claim_C10_amended (options : List OptionDescriptor) (xs : List String) (t : String)
    (hst : stateAfter options none xs = none)
    (hd : startsWithDash t = true)
    (hm : lstripDash t ∈ options.map (fun op => op.name)) :
    parse_config_args (xs ++ [t]) options = parse_config_args xs options := by
  obtain ⟨op, hop⟩ := find?_name_isSome options (lstripDash t) hm
  unfold parse_config_args
  rw [parseLoop_append, hst]
  rw [show parseLoop options none [t] = ([], []) by simp [parseLoop, hd, hop, parseLoop_nil]]
  simp

/-- Claim C10 amended, witness at a concrete input. -/
theorem claim_C10_witness :
    parse_config_args [("x"), ("--a_b")] [descAB] = parse_config_args [("x")] [descAB] :=
  claim_C10_amended [descAB] [("x")] ("--a_b") rfl rfl (by decide)

/-- Claim C3 counterexample: the token immediately following a non-matching
flag is not always passthrough — here `--a_b` follows the unknown flag
`--unknown`, matches a descriptor, becomes the pending flag, and is then
dropped at the end of input, so it never reaches the passthrough list. -/
theorem claim_C3_counterexample :
    (parse_config_args [("--unknown"), ("--a_b")] [descAB]).1 = [("--unknown")] ∧
    ("--a_b") ∉ (parse_config_args [("--unknown"), ("--a_b")] [descAB]).1 := by
  exact ⟨rfl, by decide⟩

/-- Claim C3 (amended): a flag token whose stripped form matches no
descriptor name, reached with no descriptor flag pending, appears in the
passthrough list in place and unmodified, and so does the token
immediately following it provided that token is not itself a flag matching
a descriptor name; neither contributes an override entry. -/
theorem claim_C3_amended (options : List OptionDescriptor) (xs ys : List String) (t u : String)
    (hst : stateAfter options none xs = none)
    (hd : startsWithDash t = true)
    (hm : lstripDash t ∉ options.map (fun op => op.name))
    (hu : ¬(startsWithDash u = true ∧ lstripDash u ∈ options.map (fun op => op.name))) :
    parse_config_args (xs ++ t :: u :: ys) options =
      ((parse_config_args xs options).1 ++ t :: u :: (parse_config_args ys options).1,
       (parse_config_args xs options).2 ++ (parse_config_args ys options).2) := by
  have hft := find?_name_eq_none options (lstripDash t) hm
  unfold parse_config_args
  rw [parseLoop_append, hst]
  rw [show parseLoop options none (t :: u :: ys) =
        (t :: (parseLoop options none (u :: ys)).1, (parseLoop options none (u :: ys)).2) by
      simp [parseLoop, hd, hft]]
  by_cases hud : startsWithDash u = true
  · have hfu : options.find? (fun o => o.name == lstripDash u) = none :=
      find?_name_eq_none options (lstripDash u) (fun hmem => hu ⟨hud, hmem⟩)
    rw [show parseLoop options none (u :: ys) =
          (u :: (parseLoop options none ys).1, (parseLoop options none ys).2) by
        simp [parseLoop, hud, hfu]]
  · rw [show parseLoop options none (u :: ys) =
          (u :: (parseLoop options none ys).1, (parseLoop options none ys).2) by
        simp [parseLoop, hud]]

/-- Claim C3 amended, witness at a concrete input. -/
theorem claim_C3_witness :
    parse_config_args [("t1"), ("--unknown"), ("v"), ("t2")] [descAB] =
      ((parse_config_args [("t1")] [descAB]).1 ++
        ("--unknown") :: ("v") :: (parse_config_args [("t2")] [descAB]).1,
       (parse_config_args [("t1")] [descAB]).2 ++ (parse_config_args [("t2")] [descAB]).2) :=
  claim_C3_amended [descAB] [("t1")] [("t2")] ("--unknown") ("v") rfl rfl (by decide)
    (by decide)

/-- Claim C4: when `parse_config_args` accepts a changed value for a
matched descriptor, the override entry is the single top-level key of the
nested mapping built by `convert_key_to_samkemake_format(original_key,
value)` mapped to the corresponding (serialised) nested value when the
original key contains the delimiter, and the descriptor's name mapped to
the serialised value otherwise; in particular the descriptor
`a_b / "a:b" / 1` on `["--a_b", "2", "target"]` yields passthrough
`["target"]` and the single override `a -> (b -> "2")`. -/
theorem claim_C4 :
    (∀ (options : List OptionDescriptor) (op : OptionDescriptor) (t v : String)
        (rest : List String),
      startsWithDash t = true →
      options.find? (fun o => o.name == lstripDash t) = some op →
      pyEq op.default (serialise (.str v)) = false →
      (':') ∈ op.original_key.data →
      ∃ k w, convert_key_to_samkemake_format op.original_key (.str v) = Value.dict [(k, w)] ∧
        parse_config_args (t :: v :: rest) options =
          ((parse_config_args rest options).1,
            [(k, serialise w)] :: (parse_config_args rest options).2)) ∧
    (∀ (options : List OptionDescriptor) (op : OptionDescriptor) (t v : String)
        (rest : List String),
      startsWithDash t = true →
      options.find? (fun o => o.name == lstripDash t) = some op →
      pyEq op.default (serialise (.str v)) = false →
      (':') ∉ op.original_key.data →
      parse_config_args (t :: v :: rest) options =
        ((parse_config_args rest options).1,
          [(op.name, serialise (.str v))] :: (parse_config_args rest options).2)) ∧
    parse_config_args [("--a_b"), ("2"), ("target")] [descAB] =
      ([("target")], [[(("a"), Value.dict [(("b"), Value.str ("2"))])]]) := by
  refine ⟨?_, ?_, rfl⟩
  · intro options op t v rest hd hop hne hk
    obtain ⟨k, w, hw⟩ := convert_single op.original_key (.str v)
    refine ⟨k, w, hw, ?_⟩
    unfold parse_config_args
    rw [show parseLoop options none (t :: v :: rest) = parseLoop options (some op) (v :: rest) by
      simp [parseLoop, hd, hop]]
    simp [parseLoop, hne, hk, hw]
  · intro options op t v rest hd hop hne hk
    unfold parse_config_args
    rw [show parseLoop options none (t :: v :: rest) = parseLoop options (some op) (v :: rest) by
      simp [parseLoop, hd, hop]]
    simp [parseLoop, hne, hk]

/-- Claim C4, witness instantiating the delimiter case at a concrete
input. -/
theorem claim_C4_witness :
    ∃ k w, convert_key_to_samkemake_format (("a:b")) (.str ("2")) = Value.dict [(k, w)] ∧
      parse_config_args [("--a_b"), ("2"), ("t")] [descAB] =
        ((parse_config_args [("t")] [descAB]).1,
          [(k, serialise w)] :: (parse_config_args [("t")] [descAB]).2) :=
  claim_C4.1 [descAB] descAB ("--a_b") ("2") [("t")] rfl rfl (by decide) (by decide)

/-- Claim C6: for a key formed of one or more non-empty delimiter-free
segments joined by `:`, `convert_key_to_samkemake_format` returns the
minimal nested single-entry mapping reproducing the path with the value at
the leaf, and a key containing no delimiter yields the one-level mapping. -/
theorem claim_C6 :
    (∀ (segs : List String) (v : Value), segs ≠ [] →
      (∀ s ∈ segs, s ≠ ("") ∧ (':') ∉ s.data) →
      convert_key_to_samkemake_format (joinColon segs) v = specNestedMapping segs v) ∧
    (∀ (key : String) (v : Value), (':') ∉ key.data →
      convert_key_to_samkemake_format key v = Value.dict [(key, v)]) := by
  constructor
  · intro segs v hne hseg
    unfold convert_key_to_samkemake_format
    rw [pySplit_join segs hne (fun s hs => (hseg s hs).2), nestParts_eq_spec]
  · intro key v hk
    unfold convert_key_to_samkemake_format pySplitColon
    rw [splitChar_no_sep (':') key.data hk]
    simp [mk_data, nestParts]

/-- Claim C6, witness at concrete inputs. -/
theorem claim_C6_witness :
    convert_key_to_samkemake_format (joinColon [("a"), ("b")]) (Value.int 2) =
      specNestedMapping [("a"), ("b")] (Value.int 2) ∧
    convert_key_to_samkemake_format ("plain") (Value.int 3) =
      Value.dict [(("plain"), Value.int 3)] :=
  ⟨claim_C6.1 [("a"), ("b")] (Value.int 2) (by simp) (by decide),
   claim_C6.2 ("plain") (Value.int 3) (by decide)⟩

/-- Each synthesized descriptor satisfies the per-field synthesis rule,
pointwise along the flattened configuration. -/
theorem buildGo_forall2 (flatAnn : List (String × Value)) :
    ∀ (flat : List (String × Value)) (l : List OptionDescriptor),
      buildGo flatAnn flat = some l →
      List.Forall₂ (synthesizedPerSpec flatAnn) flat l := by
  intro flat
  induction flat with
  | nil =>
    intro l h
    rw [buildGo] at h
    cases h
    exact List.Forall₂.nil
  | cons kv rest ih =>
    obtain ⟨op, dflt⟩ := kv
    intro l h
    rw [buildGo] at h
    cases hga : getAnn flatAnn (op ++ (":name")) with
    | some v =>
      rw [hga, Option.getD_some] at h
      cases v with
      | str n =>
        cases hbg : buildGo flatAnn rest with
        | none => rw [hbg] at h; cases h
        | some l' =>
          rw [hbg] at h
          cases h
          refine List.Forall₂.cons ?_ (ih l' hbg)
          refine ⟨rfl, rfl, ?_, ?_, ?_, ?_, ?_⟩
          · intro s hs
            rw [hga] at hs
            cases hs
            rfl
          · intro hnone
            rw [hga] at hnone
            cases hnone
          · intro hnone
            simp [hnone]
          · intro hnone
            simp [hnone]
          · intro hnone
            simp [hnone]
      | int m => cases h
      | bool b => cases h
      | path p => cases h
      | list xs => cases h
      | dict kvs => cases h
    | none =>
      rw [hga, Option.getD_none] at h
      cases hbg : buildGo flatAnn rest with
      | none => rw [hbg] at h; cases h
      | some l' =>
        rw [hbg] at h
        cases h
        refine List.Forall₂.cons ?_ (ih l' hbg)
        refine ⟨rfl, rfl, ?_, ?_, ?_, ?_, ?_⟩
        · intro s hs
          rw [hga] at hs
          cases hs
        · intro _
          rfl
        · intro hnone
          simp [hnone]
        · intro hnone
          simp [hnone]
        · intro hnone
          simp [hnone]

/-- Claim C2 counterexample: the configuration with keys `a:b` and `a_b`
(both collapsing to the flag identifier `a_b`) synthesizes successfully —
no `DuplicateOptionError` or any other failure — and the resulting names
are not pairwise distinct. -/
theorem claim_C2_counterexample :
    (build_dynamic_cli_options
        (.dict [(("a"), .dict [(("b"), Value.int 1)]), (("a_b"), Value.int 2)])
        (.dict [])).map (fun l => l.map (fun d => d.name)) = some [("a_b"), ("a_b")] ∧
    ¬ ([("a_b"), ("a_b")] : List String).Nodup := by
  exact ⟨rfl, by decide⟩

/-- Claim C2 (amended): `build_dynamic_cli_options` performs no duplicate
detection — whenever it succeeds it emits exactly one descriptor per
flattened configuration key, in order, so distinct FlatKeys that collapse
to the same flag identifier each keep their own descriptor bearing the
same name, silently. -/
theorem claim_C2_amended (cfg ann : Value) (l : List OptionDescriptor)
    (h : build_dynamic_cli_options cfg ann = some l) :
    l.map (fun d => d.original_key) = (flatten cfg).map (fun kv => kv.1) := by
  have h2 := buildGo_forall2 (flatten ann) (flatten cfg) l h
  clear h
  revert h2
  generalize flatten cfg = flat
  intro h2
  induction h2 with
  | nil => rfl
  | cons hr _ ih => simp only [List.map_cons, hr.1, ih]

/-- Claim C2 amended, witness at the colliding configuration. -/
theorem claim_C2_witness :
    ∃ l, build_dynamic_cli_options
        (.dict [(("a"), .dict [(("b"), Value.int 1)]), (("a_b"), Value.int 2)])
        (.dict []) = some l ∧
      l.map (fun d => d.original_key) =
        (flatten (.dict [(("a"), .dict [(("b"), Value.int 1)]), (("a_b"), Value.int 2)])).map
          (fun kv => kv.1) := by
  refine ⟨_, rfl, claim_C2_amended _ (Value.dict []) _ rfl⟩

/-- Claim C5: every synthesized descriptor takes its name from the
annotation when provided and otherwise from the FlatKey with delimiters
replaced by underscores, hyphens then replaced by underscores; its type
defaults to the runtime type name of the default value, `required` to
`False`, and `help` to the empty string when not annotated. In particular
config `a: (b: 1)` with empty annotations gives exactly the descriptor
`name=a_b, original_key="a:b", default=1, type=int`. -/
theorem claim_C5 :
    (∀ (cfg ann : Value) (l : List OptionDescriptor),
      build_dynamic_cli_options cfg ann = some l →
      List.Forall₂ (synthesizedPerSpec (flatten ann)) (flatten cfg) l) ∧
    build_dynamic_cli_options (.dict [(("a"), .dict [(("b"), Value.int 1)])]) (.dict []) =
      some [descAB] :=
  ⟨fun cfg ann l h => buildGo_forall2 (flatten ann) (flatten cfg) l h, rfl⟩

/-- Claim C5, witness at the scenario configuration. -/
theorem claim_C5_witness :
    List.Forall₂ (synthesizedPerSpec (flatten (.dict [])))
      (flatten (.dict [(("a"), .dict [(("b"), Value.int 1)])])) [descAB] :=
  claim_C5.1 (.dict [(("a"), .dict [(("b"), Value.int 1)])]) (.dict []) [descAB] claim_C5.2

theorem cores_ne_iff (s : String) :
    ((("--config") : String) = ("--cores=") ++ s) ↔ False := by
  simp only [iff_false]
  intro h
  have hd := congrArg String.data h.symm
  rw [String.data_append] at hd
  have hx : ('-' :: '-' :: 'c' :: 'o' :: 'r' :: 'e' :: 's' :: '=' :: s.data) =
      ['-', '-', 'c', 'o', 'n', 'f', 'i', 'g'] := hd
  simp at hx

theorem singularity_ne_iff (s : String) :
    ((("--config") : String) = ("--singularity-prefix=") ++ s) ↔ False := by
  simp only [iff_false]
  intro h
  have hd := congrArg String.data h.symm
  rw [String.data_append] at hd
  have hx : ('-' :: '-' :: 's' :: 'i' :: 'n' :: 'g' :: 'u' :: 'l' :: 'a' :: 'r' :: 'i' ::
      't' :: 'y' :: '-' :: 'p' :: 'r' :: 'e' :: 'f' :: 'i' :: 'x' :: '=' :: s.data) =
      ['-', '-', 'c', 'o', 'n', 'f', 'i', 'g'] := hd
  simp at hx

theorem snakefile_ne_iff (s : String) :
    ((("--config") : String) = ("--snakefile=") ++ s) ↔ False := by
  simp only [iff_false]
  intro h
  have hd := congrArg String.data h.symm
  rw [String.data_append] at hd
  have hx : ('-' :: '-' :: 's' :: 'n' :: 'a' :: 'k' :: 'e' :: 'f' :: 'i' :: 'l' :: 'e' ::
      '=' :: s.data) = ['-', '-', 'c', 'o', 'n', 'f', 'i', 'g'] := hd
  simp at hx

theorem configfile_ne_iff (s : String) :
    ((("--config") : String) = ("--configfile=") ++ s) ↔ False := by
  simp only [iff_false]
  intro h
  have hd := congrArg String.data h.symm
  rw [String.data_append] at hd
  have hx : ('-' :: '-' :: 'c' :: 'o' :: 'n' :: 'f' :: 'i' :: 'g' :: 'f' :: 'i' :: 'l' ::
      'e' :: '=' :: s.data) = ['-', '-', 'c', 'o', 'n', 'f', 'i', 'g'] := hd
  simp at hx

theorem profile_ne_iff (s : String) :
    ((("--config") : String) = ("--profile=") ++ s) ↔ False := by
  simp only [iff_false]
  intro h
  have hd := congrArg String.data h.symm
  rw [String.data_append] at hd
  have hx : ('-' :: '-' :: 'p' :: 'r' :: 'o' :: 'f' :: 'i' :: 'l' :: 'e' :: '=' :: s.data) =
      ['-', '-', 'c', 'o', 'n', 'f', 'i', 'g'] := hd
  simp at hx

theorem condaprefix_ne_iff (s : String) :
    ((("--config") : String) = ("--conda-prefix=") ++ s) ↔ False := by
  simp only [iff_false]
  intro h
  have hd := congrArg String.data h.symm
  rw [String.data_append] at hd
  have hx : ('-' :: '-' :: 'c' :: 'o' :: 'n' :: 'd' :: 'a' :: '-' :: 'p' :: 'r' :: 'e' ::
      'f' :: 'i' :: 'x' :: '=' :: s.data) = ['-', '-', 'c', 'o', 'n', 'f', 'i', 'g'] := hd
  simp at hx

set_option maxHeartbeats 2000000 in
/-- None of the fixed flags assembled before the reconciled tokens is the
`--config` token. -/
theorem config_not_mem_base (e : RunEnv) (ctx2 : List String) :
    ("--config") ∉ buildBaseArgs e ctx2 := by
  intro h
  unfold buildBaseArgs at h
  repeat' split at h
  all_goals
    simp [cores_ne_iff, singularity_ne_iff, snakefile_ne_iff, configfile_ne_iff,
      profile_ne_iff, condaprefix_ne_iff] at h

/-- Claim C7 counterexample (the legacy dispatcher `CLI.run`,
src/snk/cli/main.py line 281): with no overrides at all, the assembled
argument list still contains the `--config` token. -/
theorem claim_C7_counterexample :
    ("--config") ∈ cliRunConfigExtend [] [] [] ∧
    (parse_config_args [] ([] : List OptionDescriptor)).2 = [] :=
  ⟨by decide, rfl⟩

/-- Claim C7 (amended, for `RunApp.run`): provided no passthrough token
rewrites to the literal `--config` under the `--snake-` substitution, the
assembled engine argument list contains a `--config` token exactly when
the reconciled override list is non-empty. The legacy `CLI.run` appends
`--config` unconditionally instead. -/
theorem claim_C7_amended (e : RunEnv) (ctxArgs : List String)
    (options : List OptionDescriptor)
    (hclean : ∀ s ∈ (parse_config_args (ctxArgs ++ targetTokens e) options).1,
      replaceSnake s ≠ ("--config")) :
    (("--config") ∈ runAppArgs e ctxArgs options ↔
      (parse_config_args (ctxArgs ++ targetTokens e) options).2 ≠ []) := by
  have hrw : runAppArgs e ctxArgs options =
      buildBaseArgs e (ctxArgs ++ targetTokens e) ++
        (parse_config_args (ctxArgs ++ targetTokens e) options).1.map replaceSnake ++
        (if (configTokens (parse_config_args (ctxArgs ++ targetTokens e) options).2).isEmpty
          then []
          else ("--config") ::
            configTokens (parse_config_args (ctxArgs ++ targetTokens e) options).2) := rfl
  rw [hrw]
  constructor
  · intro h hnil
    rw [hnil] at h
    simp only [configTokens, List.map_nil, List.flatten_nil, List.isEmpty_nil, if_true,
      List.append_nil] at h
    rcases List.mem_append.mp h with h | h
    · exact config_not_mem_base e _ h
    · rcases List.mem_map.mp h with ⟨s, hs, he⟩
      exact hclean s hs he
  · intro hne
    have hsingle : ∀ c ∈ (parse_config_args (ctxArgs ++ targetTokens e) options).2,
        c.length = 1 :=
      fun c hc => parseLoop_config_singleton options (ctxArgs ++ targetTokens e) none c hc
    have hconfigs :
        configTokens (parse_config_args (ctxArgs ++ targetTokens e) options).2 ≠ [] := by
      revert hne hsingle
      generalize (parse_config_args (ctxArgs ++ targetTokens e) options).2 = L
      intro hne hsingle
      cases L with
      | nil => exact absurd rfl hne
      | cons c rest =>
        have hlen := hsingle c (List.mem_cons_self c rest)
        cases c with
        | nil => simp at hlen
        | cons kv tl => simp [configTokens]
    revert hconfigs
    generalize configTokens (parse_config_args (ctxArgs ++ targetTokens e) options).2 = CT
    intro hconfigs
    cases CT with
    | nil => exact absurd rfl hconfigs
    | cons a b => simp

/-- Claim C7 amended, witness at a concrete changed-value invocation. -/
theorem claim_C7_witness :
    ("--config") ∈ runAppArgs sampleEnv [("--a_b"), ("2")] [descAB] ↔
      (parse_config_args ([("--a_b"), ("2")] ++ targetTokens sampleEnv) [descAB]).2 ≠ [] :=
  claim_C7_amended sampleEnv [("--a_b"), ("2")] [descAB] (by decide)

/-- Membership in the staging result: a name is present after staging iff
it was present before or was copied by this invocation. -/
theorem stageGo_fs_iff (rs : List String) :
    ∀ (fs : List String) (x : String),
      x ∈ (stageGo fs rs).1 ↔ x ∈ fs ∨ x ∈ (stageGo fs rs).2 := by
  induction rs with
  | nil =>
    intro fs x
    simp [stageGo]
  | cons r rest ih =>
    intro fs x
    by_cases hr : r ∈ fs
    · rw [show stageGo fs (r :: rest) = stageGo fs rest by simp [stageGo, hr]]
      exact ih fs x
    · rw [show stageGo fs (r :: rest) =
          ((stageGo (fs ++ [r]) rest).1, r :: (stageGo (fs ++ [r]) rest).2) by
        simp [stageGo, hr]]
      simp only [List.mem_cons]
      rw [ih (fs ++ [r]) x]
      simp only [List.mem_append, List.mem_singleton]
      tauto

/-- A name is recorded as copied iff it was a declared resource that did
not already exist in the working directory. -/
theorem stageGo_copied_iff (rs : List String) :
    ∀ (fs : List String) (c : String),
      c ∈ (stageGo fs rs).2 ↔ c ∈ rs ∧ c ∉ fs := by
  induction rs with
  | nil =>
    intro fs c
    simp [stageGo]
  | cons r rest ih =>
    intro fs c
    by_cases hr : r ∈ fs
    · rw [show stageGo fs (r :: rest) = stageGo fs rest by simp [stageGo, hr]]
      rw [ih fs c]
      constructor
      · rintro ⟨h1, h2⟩
        exact ⟨List.mem_cons_of_mem r h1, h2⟩
      · rintro ⟨h1, h2⟩
        rcases List.mem_cons.mp h1 with h | h
        · exact absurd (h ▸ hr) h2
        · exact ⟨h, h2⟩
    · rw [show stageGo fs (r :: rest) =
          ((stageGo (fs ++ [r]) rest).1, r :: (stageGo (fs ++ [r]) rest).2) by
        simp [stageGo, hr]]
      simp only [List.mem_cons]
      rw [ih (fs ++ [r]) c]
      simp only [List.mem_append, List.mem_singleton]
      constructor
      · rintro (h | ⟨h1, h2⟩)
        · exact ⟨Or.inl h, h ▸ hr⟩
        · push_neg at h2
          exact ⟨Or.inr h1, h2.1⟩
      · rintro ⟨h1, h2⟩
        by_cases hc : c = r
        · exact Or.inl hc
        · rcases h1 with h | h
          · exact absurd h hc
          · refine Or.inr ⟨h, ?_⟩
            push_neg
            exact ⟨h2, hc⟩

/-- The cleanup pass removes exactly the recorded copies that still exist. -/
theorem cleanupStaged_mem (copied : List String) :
    ∀ (fs : List String), fs.Nodup →
      ∀ x, x ∈ cleanupStaged fs copied ↔ x ∈ fs ∧ x ∉ copied := by
  induction copied with
  | nil =>
    intro fs _ x
    simp [cleanupStaged]
  | cons c rest ih =>
    intro fs hnd x
    rw [show cleanupStaged fs (c :: rest) =
        cleanupStaged (if c ∈ fs then fs.erase c else fs) rest from rfl]
    by_cases hc : c ∈ fs
    · rw [if_pos hc, ih (fs.erase c) (hnd.erase c) x, hnd.mem_erase_iff]
      constructor
      · rintro ⟨⟨hxc, hxf⟩, hxr⟩
        exact ⟨hxf, fun hm => (List.mem_cons.mp hm).elim hxc hxr⟩
      · rintro ⟨hxf, hnm⟩
        exact ⟨⟨fun he => hnm (he ▸ List.mem_cons_self c rest), hxf⟩,
          fun hr => hnm (List.mem_cons_of_mem c hr)⟩
    · rw [if_neg hc, ih fs hnd x]
      constructor
      · rintro ⟨hxf, hxr⟩
        exact ⟨hxf, fun hm => (List.mem_cons.mp hm).elim (fun he => hc (he ▸ hxf)) hxr⟩
      · rintro ⟨hxf, hnm⟩
        exact ⟨hxf, fun hr => hnm (List.mem_cons_of_mem c hr)⟩

/-- Claim C8: staging copies a resource into the working directory exactly
when no entry of that name already exists (and before the engine call,
since the engine runs on the staged state); a pre-existing name is never
recorded as copied and survives staging; with cleanup enabled, exactly the
names this invocation copied and that still exist afterwards are removed;
the final state is the same whether the engine body succeeded or raised;
and a pre-existing name the engine left in place survives cleanup. -/
theorem claim_C8 (fs resources : List String) (cleanup : Bool)
    (engineFS : List String → List String) (ok : Bool) :
    (∀ c, c ∈ (stageGo fs resources).2 ↔ c ∈ resources ∧ c ∉ fs) ∧
    (∀ r, r ∈ fs → r ∉ (stageGo fs resources).2) ∧
    (∀ x, x ∈ fs → x ∈ (stageGo fs resources).1) ∧
    ((engineFS (stageGo fs resources).1).Nodup →
      ∀ x, x ∈ (withCopyResources fs resources true (fun f => (engineFS f, ok))).1 ↔
        x ∈ engineFS (stageGo fs resources).1 ∧ x ∉ (stageGo fs resources).2) ∧
    ((withCopyResources fs resources cleanup (fun f => (engineFS f, true))).1 =
      (withCopyResources fs resources cleanup (fun f => (engineFS f, false))).1) ∧
    ((engineFS (stageGo fs resources).1).Nodup → ∀ x, x ∈ fs →
      x ∈ engineFS (stageGo fs resources).1 →
      x ∈ (withCopyResources fs resources cleanup (fun f => (engineFS f, ok))).1) := by
  refine ⟨fun c => stageGo_copied_iff resources fs c,
    fun r hrf hmem => ((stageGo_copied_iff resources fs r).mp hmem).2 hrf,
    fun x hx => (stageGo_fs_iff resources fs x).mpr (Or.inl hx),
    fun hnd x => cleanupStaged_mem (stageGo fs resources).2
      (engineFS (stageGo fs resources).1) hnd x,
    rfl,
    ?_⟩
  intro hnd x hxf hxe
  cases cleanup with
  | true =>
    exact (cleanupStaged_mem (stageGo fs resources).2
      (engineFS (stageGo fs resources).1) hnd x).mpr
      ⟨hxe, fun hm => ((stageGo_copied_iff resources fs x).mp hm).2 hxf⟩
  | false => exact hxe

/-- Claim C8, witness: a pre-existing `pre` is skipped and survives, `new`
is copied and then removed by cleanup. -/
theorem claim_C8_witness :
    (("pre") ∉ (stageGo [("pre")] [("pre"), ("new")]).2) ∧
    (("new") ∈ (withCopyResources [("pre")] [("pre"), ("new")] true
        (fun f => (f, false))).1 ↔
      ("new") ∈ (stageGo [("pre")] [("pre"), ("new")]).1 ∧
        ("new") ∉ (stageGo [("pre")] [("pre"), ("new")]).2) :=
  ⟨(claim_C8 [("pre")] [("pre"), ("new")] true (fun f => f) false).2.1 ("pre") (by decide),
   (claim_C8 [("pre")] [("pre"), ("new")] true (fun f => f) false).2.2.2.1 (by decide) ("new")⟩

/-- Claim C9: a nonzero engine exit status is propagated unchanged as the
run command's exit status (skipping the working-state cleanup); a zero
status leaves exit status zero, and the `.snakemake` deletion is performed
only when the run was not instructed to keep it. -/
theorem claim_C9 (status : Int) (keep pre post : Bool) :
    (status ≠ 0 → runPostEngine status keep pre post = (status, false)) ∧
    ((runPostEngine 0 keep pre post).1 = 0) ∧
    ((runPostEngine 0 keep pre post).2 = true → keep = false) := by
  refine ⟨fun h => ?_, ?_, ?_⟩
  · simp [runPostEngine, h]
  · simp [runPostEngine]
  · intro h
    cases keep with
    | false => rfl
    | true =>
      exfalso
      simp [runPostEngine] at h

/-- Claim C9, witness at exit status 3. -/
theorem claim_C9_witness :
    runPostEngine 3 true false true = (3, false) :=
  (claim_C9 3 true false true).1 (by decide)

end Snk
